import Mathlib

/-!
Verification of the coordinate-geometry engine in
`app/lib/core/inference.server.ts`: bounding-box arithmetic, the alpha
position encoder, the two crop-region planners and the resolution matcher.

Numbers are modelled as rationals (`ℚ`): every operation the engine performs
on its stated domain (+, -, *, /, min, max, rounding to integer) is exact
real arithmetic there, and `Math.round` rounds half toward +infinity exactly
as Mathlib's `round` on `ℚ` does.  Lean's rational division returns `0` on a
zero denominator while JavaScript produces `NaN` or `±Infinity`; wherever a
claim touches that case the division is modelled explicitly with `jsDiv`,
which returns `none` for the non-finite results.
-/

namespace Inference

/-- `BBox`: the 4-tuple `[x1, y1, x2, y2]` of `inference.server.ts`. -/
@[ext] structure BBox where
  x1 : ℚ
  y1 : ℚ
  x2 : ℚ
  y2 : ℚ
deriving Repr, DecidableEq

/-- `Vector2 = [number, number]`. -/
abbrev Vector2 : Type := ℚ × ℚ

/-- `sharp.Region { left, top, width, height }` as returned by the crop
planners: all four fields pass through `Math.round`, hence integers. -/
@[ext] structure Region where
  left : ℤ
  top : ℤ
  width : ℤ
  height : ℤ
deriving Repr, DecidableEq

/-- The pre-rounding crop window of `getRelativeCropRegion`: the four
rational values `left, top, width, height` just before the final
`Math.round` calls. -/
@[ext] structure RegionQ where
  left : ℚ
  top : ℚ
  width : ℚ
  height : ℚ
deriving Repr, DecidableEq

/-- `getBBoxArea(bbox)`: `(x2 - x1) * (y2 - y1)`. -/
def getBBoxArea (bbox : BBox) : ℚ :=
  (bbox.x2 - bbox.x1) * (bbox.y2 - bbox.y1)

/-- `clipBBox(bbox, imageWidth, imageHeight)`: clamps each coordinate
independently via `Math.max(0, Math.min(c, bound))`. -/
def clipBBox (bbox : BBox) (imageWidth imageHeight : ℚ) : BBox where
  x1 := max 0 (min bbox.x1 imageWidth)
  y1 := max 0 (min bbox.y1 imageHeight)
  x2 := max 0 (min bbox.x2 imageWidth)
  y2 := max 0 (min bbox.y2 imageHeight)

/-- `lerpBBox(startBox, endBox, alpha)`: componentwise
`start[i] + alphas[i] * (end[i] - start[i])` with
`alphas = [alpha.x, alpha.y, alpha.x, alpha.y]` (the source's 4-iteration
loop, unrolled). -/
def lerpBBox (startBox endBox : BBox) (alpha : Vector2) : BBox where
  x1 := startBox.x1 + alpha.1 * (endBox.x1 - startBox.x1)
  y1 := startBox.y1 + alpha.2 * (endBox.y1 - startBox.y1)
  x2 := startBox.x2 + alpha.1 * (endBox.x2 - startBox.x2)
  y2 := startBox.y2 + alpha.2 * (endBox.y2 - startBox.y2)

/-- `getBBoxFromAlpha(imageWidth, imageHeight, boxWidth, boxHeight, boxAlpha)`:
lerp between the box anchored at the top-left corner and the box anchored at
the bottom-right corner of the frame. -/
def getBBoxFromAlpha (imageWidth imageHeight boxWidth boxHeight : ℚ)
    (boxAlpha : Vector2) : BBox :=
  lerpBBox ⟨0, 0, boxWidth, boxHeight⟩
    ⟨imageWidth - boxWidth, imageHeight - boxHeight, imageWidth, imageHeight⟩
    boxAlpha

/-- `getAlphaFromBBox(bbox, imageWidth, imageHeight)`:
`(x1 / (imageWidth - sizeX), y1 / (imageHeight - sizeY))`, modelled with
rational division (which yields `0` on a zero denominator; see
`getAlphaFromBBoxJS` for the JavaScript treatment of that case). -/
def getAlphaFromBBox (bbox : BBox) (imageWidth imageHeight : ℚ) : Vector2 :=
  (bbox.x1 / (imageWidth - (bbox.x2 - bbox.x1)),
   bbox.y1 / (imageHeight - (bbox.y2 - bbox.y1)))

/-- JavaScript division restricted to its finite results: `some (a / b)` when
the denominator is nonzero, `none` for the non-finite values (`NaN` when
`a = 0`, `±Infinity` otherwise) that JavaScript produces on a zero
denominator. -/
def jsDiv (a b : ℚ) : Option ℚ :=
  if b = 0 then none else some (a / b)

/-- `getAlphaFromBBox` with JavaScript division semantics made explicit:
a component is `none` exactly when the source computes a non-finite number
(box size equal to frame size on that axis). -/
def getAlphaFromBBoxJS (bbox : BBox) (imageWidth imageHeight : ℚ) :
    Option ℚ × Option ℚ :=
  (jsDiv bbox.x1 (imageWidth - (bbox.x2 - bbox.x1)),
   jsDiv bbox.y1 (imageHeight - (bbox.y2 - bbox.y1)))

/-- `shiftCoordinates(bbox, imageWidth, imageHeight)`: the source's four
sequential `if` statements, each rewriting the current `(x1, x2)` or
`(y1, y2)` pair; `bboxWidth`/`bboxHeight` are taken from the original box,
and the right/bottom checks see the coordinates already updated by the
left/top checks. -/
def shiftCoordinates (bbox : BBox) (imageWidth imageHeight : ℚ) : BBox :=
  let bboxWidth := bbox.x2 - bbox.x1
  let bboxHeight := bbox.y2 - bbox.y1
  let px := if bbox.x1 < 0 then ((0 : ℚ), bboxWidth) else (bbox.x1, bbox.x2)
  let py := if bbox.y1 < 0 then ((0 : ℚ), bboxHeight) else (bbox.y1, bbox.y2)
  let qx := if px.2 > imageWidth then (imageWidth - bboxWidth, imageWidth) else px
  let qy := if py.2 > imageHeight then (imageHeight - bboxHeight, imageHeight) else py
  ⟨qx.1, qy.1, qx.2, qy.2⟩

/-- `getMaxCropSize(imageWidth, imageHeight, whAspectRatio)`. -/
def getMaxCropSize (imageWidth imageHeight whAspectRatio : ℚ) : Vector2 :=
  if imageWidth / imageHeight > whAspectRatio then
    (imageHeight * whAspectRatio, imageHeight)
  else
    (imageWidth, imageWidth / whAspectRatio)

/-- `getResponsiveCropRegion(imageWidth, imageHeight, whAspectRatio, bbox)`
(the legacy planner). -/
def getResponsiveCropRegion (imageWidth imageHeight whAspectRatio : ℚ)
    (bbox : BBox) : Region :=
  let c := getMaxCropSize imageWidth imageHeight whAspectRatio
  let topLeftCrop :=
    shiftCoordinates ⟨bbox.x2 - c.1, bbox.y2 - c.2, bbox.x2, bbox.y2⟩
      imageWidth imageHeight
  let bottomRightCrop :=
    shiftCoordinates ⟨bbox.x1, bbox.y1, bbox.x1 + c.1, bbox.y1 + c.2⟩
      imageWidth imageHeight
  let alpha := getAlphaFromBBox bbox imageWidth imageHeight
  let middleCrop := lerpBBox bottomRightCrop topLeftCrop alpha
  { left := round middleCrop.x1
    top := round middleCrop.y1
    width := round c.1
    height := round c.2 }

/-- The body of `getRelativeCropRegion` up to (but not including) the final
`Math.round` calls: center point, fractional position, `getMaxCropSize`
window placed at the same fractional position, then the conditional zoom
step (`zoom = 1 / zoom`; shrink around the center only when the inverted
zoom is `< 1`). -/
def getRelativeCropRegionExact (imageWidth imageHeight whAspectRatio : ℚ)
    (bbox : BBox) (zoom : ℚ) : RegionQ :=
  let x := (bbox.x1 + bbox.x2) / 2
  let y := (bbox.y1 + bbox.y2) / 2
  let xp := x / imageWidth
  let yp := y / imageHeight
  let c := getMaxCropSize imageWidth imageHeight whAspectRatio
  let left := x - xp * c.1
  let top := y - yp * c.2
  let zoomInv := 1 / zoom
  if zoomInv < 1 then
    { left := x - (x - left) * zoomInv
      top := y - (y - top) * zoomInv
      width := c.1 * zoomInv
      height := c.2 * zoomInv }
  else
    { left := left, top := top, width := c.1, height := c.2 }

/-- `getRelativeCropRegion(imageWidth, imageHeight, whAspectRatio, bbox, zoom)`
(the current planner): the exact window with every field rounded at the very
end. -/
def getRelativeCropRegion (imageWidth imageHeight whAspectRatio : ℚ)
    (bbox : BBox) (zoom : ℚ) : Region :=
  let e := getRelativeCropRegionExact imageWidth imageHeight whAspectRatio bbox zoom
  { left := round e.left, top := round e.top
    width := round e.width, height := round e.height }

/-- The symmetric aspect-ratio distance the resolution matcher computes for a
catalog entry `p` against the image ratio `ar`:
`Math.max(arC, ar) / Math.min(arC, ar)` with `arC = p[0] / p[1]`. -/
def resDist (ar : ℚ) (p : Vector2) : ℚ :=
  max (p.1 / p.2) ar / min (p.1 / p.2) ar

/-- `getClosestSupportedResolution(imageWidth, imageHeight, supportedResolutions)`:
`Array.prototype.reduce` with no initial value, so the head seeds the fold
and an empty catalog throws (modelled as `none`). -/
def getClosestSupportedResolution (imageWidth imageHeight : ℚ)
    (supportedResolutions : List Vector2) : Option Vector2 :=
  let ar := imageWidth / imageHeight
  match supportedResolutions with
  | [] => none
  | h :: t =>
    some (t.foldl (fun prev curr =>
      let prevAr := prev.1 / prev.2
      let currAr := curr.1 / curr.2
      let prevRatio := max prevAr ar / min prevAr ar
      let currRatio := max currAr ar / min currAr ar
      if prevRatio < currRatio then prev else curr) h)

/-- One element of `FaceDetectionOutput`. -/
structure Face where
  embedding : List ℚ
  bbox : BBox
  det_score : ℚ
  gender : ℚ
  age : ℚ
deriving Repr, DecidableEq

/-- `extractBiggestFace(faces)`: `Array.prototype.reduce` keeping `prev`
exactly when its bounding-box area is strictly greater; no initial value, so
an empty list throws (modelled as `none`). -/
def extractBiggestFace (faces : List Face) : Option Face :=
  match faces with
  | [] => none
  | h :: t =>
    some (t.foldl (fun prev curr =>
      if getBBoxArea prev.bbox > getBBoxArea curr.bbox then prev else curr) h)

end Inference

namespace Inference

/-- Claim C9: `lerpBBox a b (0,0) = a` and `lerpBBox a b (1,1) = b` exactly,
for any boxes `a`, `b`; and every alpha pair, inside `[0,1]` or not, is
accepted and interpolated/extrapolated by the same linear formula. -/
theorem lerpBBox_endpoints (a b : BBox) :
    lerpBBox a b (0, 0) = a ∧ lerpBBox a b (1, 1) = b ∧
    ∀ alpha : Vector2, lerpBBox a b alpha =
      ⟨a.x1 + alpha.1 * (b.x1 - a.x1), a.y1 + alpha.2 * (b.y1 - a.y1),
       a.x2 + alpha.1 * (b.x2 - a.x2), a.y2 + alpha.2 * (b.y2 - a.y2)⟩ := by
  refine ⟨?_, ?_, fun alpha => rfl⟩ <;> ext <;> simp [lerpBBox]

end Inference

namespace Inference

/-- Claim C4 counterexample: the inverted in-frame box `[5, 0, 3, 0]` is
returned unchanged by `clipBBox` (clamping is monotone and cannot reorder
coordinates), so the result still has `x2 < x1`, refuting "returns a
well-formed box ... even if the input was inverted". -/
theorem clipBBox_inverted_cex :
    ¬ ((clipBBox ⟨5, 0, 3, 0⟩ 10 10).x1 ≤ (clipBBox ⟨5, 0, 3, 0⟩ 10 10).x2) := by
  norm_num [clipBBox]

/-- Claim C4 (amended): for a WELL-FORMED input box, `clipBBox` returns a
well-formed box (`x2 ≥ x1`, `y2 ≥ y1`); and a well-formed box lying fully
outside a nonnegative frame clips to a zero-area box, never a negative one.
(Inverted inputs can stay inverted: see the counterexample.) -/
theorem clipBBox_wellFormed (b : BBox) (W H : ℚ)
    (hx : b.x1 ≤ b.x2) (hy : b.y1 ≤ b.y2) :
    (clipBBox b W H).x1 ≤ (clipBBox b W H).x2 ∧
    (clipBBox b W H).y1 ≤ (clipBBox b W H).y2 ∧
    (0 ≤ W → 0 ≤ H → (b.x2 ≤ 0 ∨ W ≤ b.x1 ∨ b.y2 ≤ 0 ∨ H ≤ b.y1) →
      getBBoxArea (clipBBox b W H) = 0) := by
  refine ⟨max_le_max le_rfl (min_le_min hx le_rfl),
          max_le_max le_rfl (min_le_min hy le_rfl), ?_⟩
  intro hW hH hout
  rcases hout with h | h | h | h
  · have e1 : max 0 (min b.x1 W) = 0 :=
      max_eq_left ((min_le_left _ _).trans (hx.trans h))
    have e2 : max 0 (min b.x2 W) = 0 :=
      max_eq_left ((min_le_left _ _).trans h)
    simp [getBBoxArea, clipBBox, e1, e2]
  · have e1 : max 0 (min b.x1 W) = W := by
      rw [min_eq_right h]; exact max_eq_right hW
    have e2 : max 0 (min b.x2 W) = W := by
      rw [min_eq_right (h.trans hx)]; exact max_eq_right hW
    simp [getBBoxArea, clipBBox, e1, e2]
  · have e1 : max 0 (min b.y1 H) = 0 :=
      max_eq_left ((min_le_left _ _).trans (hy.trans h))
    have e2 : max 0 (min b.y2 H) = 0 :=
      max_eq_left ((min_le_left _ _).trans h)
    simp [getBBoxArea, clipBBox, e1, e2]
  · have e1 : max 0 (min b.y1 H) = H := by
      rw [min_eq_right h]; exact max_eq_right hH
    have e2 : max 0 (min b.y2 H) = H := by
      rw [min_eq_right (h.trans hy)]; exact max_eq_right hH
    simp [getBBoxArea, clipBBox, e1, e2]

/-- Witness for `clipBBox_wellFormed` at the well-formed box `[20, -5, 30, -2]`
lying fully outside the 10×10 frame. -/
theorem clipBBox_wellFormed_witness :
    (clipBBox ⟨20, -5, 30, -2⟩ 10 10).x1 ≤ (clipBBox ⟨20, -5, 30, -2⟩ 10 10).x2 ∧
    getBBoxArea (clipBBox ⟨20, -5, 30, -2⟩ 10 10) = 0 :=
  ⟨(clipBBox_wellFormed ⟨20, -5, 30, -2⟩ 10 10 (by norm_num) (by norm_num)).1,
   (clipBBox_wellFormed ⟨20, -5, 30, -2⟩ 10 10 (by norm_num) (by norm_num)).2.2
     (by norm_num) (by norm_num) (by norm_num)⟩

/-- Claim C3 counterexample: for the box `[0, 0, 100, 50]` in a 100×100
frame the box width equals the image width, so the source computes
`0 / 0 = NaN` for the x-alpha — a non-finite value (`none` in the model),
not `0`. -/
theorem getAlphaFromBBox_fullWidth_cex :
    (getAlphaFromBBoxJS ⟨0, 0, 100, 50⟩ 100 100).1 = none ∧
    (getAlphaFromBBoxJS ⟨0, 0, 100, 50⟩ 100 100).1 ≠ some 0 := by
  have h : (getAlphaFromBBoxJS ⟨0, 0, 100, 50⟩ 100 100).1 = none := by
    norm_num [getAlphaFromBBoxJS, jsDiv]
  exact ⟨h, by rw [h]; exact fun hc => Option.noConfusion hc⟩

/-- Claim C3 (amended): when the box size equals the frame size on an axis,
`getAlphaFromBBox` divides by zero and that axis's alpha is a non-finite
JavaScript number (`NaN` or `±Infinity`), not `0`; on an axis where the box
is not frame-sized the alpha is the finite value `x1 / (imageWidth - sizeX)`
(resp. `y1 / (imageHeight - sizeY)`). Callers must treat the non-finite axis
as undefined (policy: treat as `0`). -/
theorem getAlphaFromBBoxJS_spec (b : BBox) (W H : ℚ) :
    (b.x2 - b.x1 = W → (getAlphaFromBBoxJS b W H).1 = none) ∧
    (b.x2 - b.x1 ≠ W →
      (getAlphaFromBBoxJS b W H).1 = some (b.x1 / (W - (b.x2 - b.x1)))) ∧
    (b.y2 - b.y1 = H → (getAlphaFromBBoxJS b W H).2 = none) ∧
    (b.y2 - b.y1 ≠ H →
      (getAlphaFromBBoxJS b W H).2 = some (b.y1 / (H - (b.y2 - b.y1)))) := by
  refine ⟨fun h => ?_, fun h => ?_, fun h => ?_, fun h => ?_⟩
  · simp [getAlphaFromBBoxJS, jsDiv, sub_eq_zero, h]
  · simp [getAlphaFromBBoxJS, jsDiv, sub_eq_zero, Ne.symm h]
  · simp [getAlphaFromBBoxJS, jsDiv, sub_eq_zero, h]
  · simp [getAlphaFromBBoxJS, jsDiv, sub_eq_zero, Ne.symm h]

/-- Witness for `getAlphaFromBBoxJS_spec` at the box `[0, 0, 100, 50]` in a
100×100 frame: frame-wide on the x-axis (non-finite alpha), strictly smaller
on the y-axis (finite alpha `0 / 50`). -/
theorem getAlphaFromBBoxJS_spec_witness :
    (getAlphaFromBBoxJS ⟨0, 0, 100, 50⟩ 100 100).1 = none ∧
    (getAlphaFromBBoxJS ⟨0, 0, 100, 50⟩ 100 100).2 =
      some ((⟨0, 0, 100, 50⟩ : BBox).y1 /
        (100 - ((⟨0, 0, 100, 50⟩ : BBox).y2 - (⟨0, 0, 100, 50⟩ : BBox).y1))) :=
  ⟨(getAlphaFromBBoxJS_spec ⟨0, 0, 100, 50⟩ 100 100).1 (by norm_num),
   (getAlphaFromBBoxJS_spec ⟨0, 0, 100, 50⟩ 100 100).2.2.2 (by norm_num)⟩

/-- Claim C8: `getBBoxFromAlpha` is the inverse of `getAlphaFromBBox` — for
every well-formed box strictly smaller than the frame on both axes,
re-decoding the encoded alpha at the box's own width and height recovers the
box exactly. -/
theorem getBBoxFromAlpha_inverse (b : BBox) (W H : ℚ)
    (hx : b.x1 ≤ b.x2) (hy : b.y1 ≤ b.y2)
    (hw : b.x2 - b.x1 < W) (hh : b.y2 - b.y1 < H) :
    getBBoxFromAlpha W H (b.x2 - b.x1) (b.y2 - b.y1)
      (getAlphaFromBBox b W H) = b := by
  have hwx : W - (b.x2 - b.x1) ≠ 0 := by linarith
  have hhy : H - (b.y2 - b.y1) ≠ 0 := by linarith
  ext <;> simp only [getBBoxFromAlpha, lerpBBox, getAlphaFromBBox] <;>
    field_simp

/-- Witness for `getBBoxFromAlpha_inverse` at the box `[10, 10, 20, 30]` in a
100×100 frame. -/
theorem getBBoxFromAlpha_inverse_witness :
    getBBoxFromAlpha 100 100 10 20
      (getAlphaFromBBox ⟨10, 10, 20, 30⟩ 100 100) = ⟨10, 10, 20, 30⟩ := by
  have h := getBBoxFromAlpha_inverse ⟨10, 10, 20, 30⟩ 100 100
    (by norm_num) (by norm_num) (by norm_num) (by norm_num)
  norm_num at h
  exact h

end Inference

namespace Inference

/-- Claim C7: for a well-formed box no larger than the frame on either axis,
`shiftCoordinates` preserves the box's width and height and returns a box
lying entirely within `[0, imageWidth] × [0, imageHeight]` (each axis
handled independently, left/top overrun fixed before right/bottom). -/
theorem shiftCoordinates_inBounds (b : BBox) (W H : ℚ)
    (hx : b.x1 ≤ b.x2) (hy : b.y1 ≤ b.y2)
    (hw : b.x2 - b.x1 ≤ W) (hh : b.y2 - b.y1 ≤ H) :
    (shiftCoordinates b W H).x2 - (shiftCoordinates b W H).x1 = b.x2 - b.x1 ∧
    (shiftCoordinates b W H).y2 - (shiftCoordinates b W H).y1 = b.y2 - b.y1 ∧
    0 ≤ (shiftCoordinates b W H).x1 ∧ (shiftCoordinates b W H).x2 ≤ W ∧
    0 ≤ (shiftCoordinates b W H).y1 ∧ (shiftCoordinates b W H).y2 ≤ H := by
  simp only [shiftCoordinates]
  split_ifs <;> refine ⟨by ring, by ring, ?_, ?_, ?_, ?_⟩ <;> simp_all

/-- Witness for `shiftCoordinates_inBounds`: the 10×10 box `[-5, -5, 5, 5]`
sticking out past the left and top edges of a 100×100 frame. -/
theorem shiftCoordinates_inBounds_witness :
    (shiftCoordinates ⟨-5, -5, 5, 5⟩ 100 100).x2 -
        (shiftCoordinates ⟨-5, -5, 5, 5⟩ 100 100).x1 = 10 ∧
    0 ≤ (shiftCoordinates ⟨-5, -5, 5, 5⟩ 100 100).x1 ∧
    (shiftCoordinates ⟨-5, -5, 5, 5⟩ 100 100).x2 ≤ 100 := by
  have h := shiftCoordinates_inBounds ⟨-5, -5, 5, 5⟩ 100 100
    (by norm_num) (by norm_num) (by norm_num) (by norm_num)
  norm_num at h
  exact ⟨h.1, h.2.2.1, h.2.2.2.1⟩

/-- Claim C6: with the region of interest centered in the image, the target
ratio equal to the image's own width:height ratio and `zoom = 1`,
`getRelativeCropRegion` returns the full-image region
`{left: 0, top: 0, width: imageWidth, height: imageHeight}`. -/
theorem getRelativeCropRegion_full (W H : ℕ) (b : BBox)
    (hW : 0 < W) (hH : 0 < H)
    (hcx : b.x1 + b.x2 = W) (hcy : b.y1 + b.y2 = H) :
    getRelativeCropRegion W H ((W : ℚ) / (H : ℚ)) b 1 =
      ⟨0, 0, (W : ℤ), (H : ℤ)⟩ := by
  have hW' : (W : ℚ) ≠ 0 := Nat.cast_ne_zero.mpr hW.ne'
  have hH' : (H : ℚ) ≠ 0 := Nat.cast_ne_zero.mpr hH.ne'
  have hc : getMaxCropSize (W : ℚ) (H : ℚ) ((W : ℚ) / (H : ℚ)) =
      ((W : ℚ), (H : ℚ)) := by
    simp only [getMaxCropSize, gt_iff_lt, lt_irrefl, if_false]
    exact Prod.ext rfl (by field_simp)
  have he : getRelativeCropRegionExact (W : ℚ) (H : ℚ) ((W : ℚ) / (H : ℚ)) b 1 =
      ⟨0, 0, (W : ℚ), (H : ℚ)⟩ := by
    simp only [getRelativeCropRegionExact, hc]
    norm_num
    constructor <;> field_simp <;> ring
  simp only [getRelativeCropRegion, he]
  ext <;> simp

/-- Witness for `getRelativeCropRegion_full`: a 100×50 image, its own aspect
ratio as target, the centered box `[40, 20, 60, 30]`, zoom 1. -/
theorem getRelativeCropRegion_full_witness :
    getRelativeCropRegion ((100 : ℕ) : ℚ) ((50 : ℕ) : ℚ)
      (((100 : ℕ) : ℚ) / ((50 : ℕ) : ℚ)) ⟨40, 20, 60, 30⟩ 1 =
      ⟨0, 0, ((100 : ℕ) : ℤ), ((50 : ℕ) : ℤ)⟩ :=
  getRelativeCropRegion_full 100 50 ⟨40, 20, 60, 30⟩
    (by norm_num) (by norm_num) (by norm_num) (by norm_num)

/-- Claim C5 counterexample: for a 100×100 image, target ratio 3, centered
box `[40, 40, 60, 60]`, the returned integer heights are 33 (`zoom = 1`,
`round(100/3)`) and 17 (`zoom = 2`, `round(50/3)`): the `zoom = 2` height is
not exactly half of the `zoom = 1` height, because each field is rounded
independently at the end. -/
theorem getRelativeCropRegion_zoom_cex :
    (getRelativeCropRegion 100 100 3 ⟨40, 40, 60, 60⟩ 2).height * 2 ≠
      (getRelativeCropRegion 100 100 3 ⟨40, 40, 60, 60⟩ 1).height := by
  norm_num [getRelativeCropRegion, getRelativeCropRegionExact, getMaxCropSize,
    round_eq]

/-- Claim C5 (amended): on a centered region of interest the PRE-ROUNDING
crop window at `zoom = 2` has exactly half the width and height of the
`zoom = 1` window and the same center point; the returned `Region` is that
window with each of the four fields independently rounded to the nearest
integer (so the returned dimensions are half only up to rounding). -/
theorem getRelativeCropRegion_zoom_halves (W H r : ℚ) (b : BBox)
    (hW : 0 < W) (hH : 0 < H)
    (hcx : b.x1 + b.x2 = W) (hcy : b.y1 + b.y2 = H) :
    (getRelativeCropRegionExact W H r b 2).width =
      (getRelativeCropRegionExact W H r b 1).width / 2 ∧
    (getRelativeCropRegionExact W H r b 2).height =
      (getRelativeCropRegionExact W H r b 1).height / 2 ∧
    (getRelativeCropRegionExact W H r b 2).left +
        (getRelativeCropRegionExact W H r b 2).width / 2 =
      (getRelativeCropRegionExact W H r b 1).left +
        (getRelativeCropRegionExact W H r b 1).width / 2 ∧
    (getRelativeCropRegionExact W H r b 2).top +
        (getRelativeCropRegionExact W H r b 2).height / 2 =
      (getRelativeCropRegionExact W H r b 1).top +
        (getRelativeCropRegionExact W H r b 1).height / 2 ∧
    getRelativeCropRegion W H r b 2 =
      ⟨round (getRelativeCropRegionExact W H r b 2).left,
       round (getRelativeCropRegionExact W H r b 2).top,
       round (getRelativeCropRegionExact W H r b 2).width,
       round (getRelativeCropRegionExact W H r b 2).height⟩ := by
  have hW' : W ≠ 0 := hW.ne'
  have hH' : H ≠ 0 := hH.ne'
  refine ⟨?_, ?_, ?_, ?_, rfl⟩
  · simp only [getRelativeCropRegionExact]; norm_num; ring
  · simp only [getRelativeCropRegionExact]; norm_num; ring
  · simp only [getRelativeCropRegionExact]; norm_num; rw [hcx]; field_simp; ring
  · simp only [getRelativeCropRegionExact]; norm_num; rw [hcy]; field_simp; ring

/-- Witness for `getRelativeCropRegion_zoom_halves` at the 100×100 image,
target ratio 3, centered box `[40, 40, 60, 60]`. -/
theorem getRelativeCropRegion_zoom_halves_witness :
    (getRelativeCropRegionExact 100 100 3 ⟨40, 40, 60, 60⟩ 2).width =
      (getRelativeCropRegionExact 100 100 3 ⟨40, 40, 60, 60⟩ 1).width / 2 ∧
    (getRelativeCropRegionExact 100 100 3 ⟨40, 40, 60, 60⟩ 2).left +
        (getRelativeCropRegionExact 100 100 3 ⟨40, 40, 60, 60⟩ 2).width / 2 =
      (getRelativeCropRegionExact 100 100 3 ⟨40, 40, 60, 60⟩ 1).left +
        (getRelativeCropRegionExact 100 100 3 ⟨40, 40, 60, 60⟩ 1).width / 2 := by
  have h := getRelativeCropRegion_zoom_halves 100 100 3 ⟨40, 40, 60, 60⟩
    (by norm_num) (by norm_num) (by norm_num) (by norm_num)
  exact ⟨h.1, h.2.2.1⟩

end Inference

namespace Inference

/-- Claim C1 counterexample: with a 100×100 image, target ratio 1 and
`zoom = 2`, `getRelativeCropRegion` returns a 50×50 region — neither
dimension equals the corresponding image dimension, refuting the claimed
maximality for every `zoom ≥ 1`. -/
theorem cropRegion_maximality_cex :
    (getRelativeCropRegion 100 100 1 ⟨25, 25, 75, 75⟩ 2).width ≠ 100 ∧
    (getRelativeCropRegion 100 100 1 ⟨25, 25, 75, 75⟩ 2).height ≠ 100 := by
  norm_num [getRelativeCropRegion, getRelativeCropRegionExact, getMaxCropSize,
    round_eq]

/-- Helper: the legacy planner's output width/height are the rounded
`getMaxCropSize` dimensions. -/
theorem getResponsiveCropRegion_width (W H r : ℚ) (b : BBox) :
    (getResponsiveCropRegion W H r b).width = round (getMaxCropSize W H r).1 ∧
    (getResponsiveCropRegion W H r b).height = round (getMaxCropSize W H r).2 :=
  ⟨rfl, rfl⟩

/-- Helper: for `zoom ≥ 1` the current planner's output width/height are the
rounded `getMaxCropSize` dimensions divided by the zoom. -/
theorem getRelativeCropRegion_size (W H r z : ℚ) (b : BBox) (hz : 1 ≤ z) :
    (getRelativeCropRegion W H r b z).width =
      round ((getMaxCropSize W H r).1 / z) ∧
    (getRelativeCropRegion W H r b z).height =
      round ((getMaxCropSize W H r).2 / z) := by
  have hz0 : (0 : ℚ) < z := lt_of_lt_of_le one_pos hz
  rcases eq_or_lt_of_le hz with h1 | h1
  · rw [← h1]
    simp [getRelativeCropRegion, getRelativeCropRegionExact]
  · have hlt : z⁻¹ < 1 := inv_lt_one_of_one_lt₀ h1
    simp [getRelativeCropRegion, getRelativeCropRegionExact, hlt,
      div_eq_mul_inv]

/-- Claim C1 (amended): for every positive image size, positive target ratio
`r`, box and `zoom = z ≥ 1` there are exact crop dimensions `cw, ch` with
`cw / ch = r` and `cw = imageWidth` or `ch = imageHeight`, such that the
legacy planner returns `round cw × round ch` (so at least one returned
dimension equals the image's) and the current planner returns
`round (cw / z) × round (ch / z)` — still of ratio `r` before rounding, but
equal to an image dimension only when `z = 1`. -/
theorem cropRegion_aspect_and_maximal (W H : ℕ) (r z : ℚ) (b : BBox)
    (hW : 0 < W) (hH : 0 < H) (hr : 0 < r) (hz : 1 ≤ z) :
    ∃ cw ch : ℚ, 0 < cw ∧ 0 < ch ∧ cw / ch = r ∧
      (cw = (W : ℚ) ∨ ch = (H : ℚ)) ∧
      (getResponsiveCropRegion W H r b).width = round cw ∧
      (getResponsiveCropRegion W H r b).height = round ch ∧
      ((getResponsiveCropRegion W H r b).width = (W : ℤ) ∨
       (getResponsiveCropRegion W H r b).height = (H : ℤ)) ∧
      (getRelativeCropRegion W H r b z).width = round (cw / z) ∧
      (getRelativeCropRegion W H r b z).height = round (ch / z) ∧
      (cw / z) / (ch / z) = r ∧
      (z = 1 → ((getRelativeCropRegion W H r b z).width = (W : ℤ) ∨
                (getRelativeCropRegion W H r b z).height = (H : ℤ))) := by
  have hW' : (0 : ℚ) < W := by exact_mod_cast hW
  have hH' : (0 : ℚ) < H := by exact_mod_cast hH
  have hz0 : (0 : ℚ) < z := lt_of_lt_of_le one_pos hz
  by_cases hcond : (W : ℚ) / (H : ℚ) > r
  · have hc : getMaxCropSize (W : ℚ) (H : ℚ) r = ((H : ℚ) * r, (H : ℚ)) :=
      if_pos hcond
    refine ⟨(H : ℚ) * r, (H : ℚ), mul_pos hH' hr, hH', by field_simp,
      Or.inr rfl, ?_, ?_, ?_, ?_, ?_, ?_, ?_⟩
    · rw [(getResponsiveCropRegion_width W H r b).1, hc]
    · rw [(getResponsiveCropRegion_width W H r b).2, hc]
    · right
      rw [(getResponsiveCropRegion_width W H r b).2, hc]
      exact round_natCast H
    · rw [(getRelativeCropRegion_size W H r z b hz).1, hc]
    · rw [(getRelativeCropRegion_size W H r z b hz).2, hc]
    · field_simp
    · intro h1
      right
      rw [(getRelativeCropRegion_size W H r z b hz).2, hc, h1, div_one]
      exact round_natCast H
  · have hc : getMaxCropSize (W : ℚ) (H : ℚ) r = ((W : ℚ), (W : ℚ) / r) :=
      if_neg hcond
    refine ⟨(W : ℚ), (W : ℚ) / r, hW', div_pos hW' hr, by field_simp,
      Or.inl rfl, ?_, ?_, ?_, ?_, ?_, ?_, ?_⟩
    · rw [(getResponsiveCropRegion_width W H r b).1, hc]
    · rw [(getResponsiveCropRegion_width W H r b).2, hc]
    · left
      rw [(getResponsiveCropRegion_width W H r b).1, hc]
      exact round_natCast W
    · rw [(getRelativeCropRegion_size W H r z b hz).1, hc]
    · rw [(getRelativeCropRegion_size W H r z b hz).2, hc]
    · field_simp
      ring
    · intro h1
      left
      rw [(getRelativeCropRegion_size W H r z b hz).1, hc, h1, div_one]
      exact round_natCast W

/-- Witness for `cropRegion_aspect_and_maximal`: 100×50 image, target ratio
1, box `[0, 0, 10, 10]`, `zoom = 2`. -/
theorem cropRegion_aspect_and_maximal_witness :
    ∃ cw ch : ℚ, 0 < cw ∧ 0 < ch ∧ cw / ch = 1 ∧
      (cw = ((100 : ℕ) : ℚ) ∨ ch = ((50 : ℕ) : ℚ)) ∧
      (getResponsiveCropRegion (100 : ℕ) (50 : ℕ) 1 ⟨0, 0, 10, 10⟩).width =
        round cw ∧
      (getResponsiveCropRegion (100 : ℕ) (50 : ℕ) 1 ⟨0, 0, 10, 10⟩).height =
        round ch ∧
      ((getResponsiveCropRegion (100 : ℕ) (50 : ℕ) 1 ⟨0, 0, 10, 10⟩).width =
          ((100 : ℕ) : ℤ) ∨
       (getResponsiveCropRegion (100 : ℕ) (50 : ℕ) 1 ⟨0, 0, 10, 10⟩).height =
          ((50 : ℕ) : ℤ)) ∧
      (getRelativeCropRegion (100 : ℕ) (50 : ℕ) 1 ⟨0, 0, 10, 10⟩ 2).width =
        round (cw / 2) ∧
      (getRelativeCropRegion (100 : ℕ) (50 : ℕ) 1 ⟨0, 0, 10, 10⟩ 2).height =
        round (ch / 2) ∧
      (cw / 2) / (ch / 2) = 1 ∧
      ((2 : ℚ) = 1 →
        ((getRelativeCropRegion (100 : ℕ) (50 : ℕ) 1 ⟨0, 0, 10, 10⟩ 2).width =
            ((100 : ℕ) : ℤ) ∨
         (getRelativeCropRegion (100 : ℕ) (50 : ℕ) 1 ⟨0, 0, 10, 10⟩ 2).height =
            ((50 : ℕ) : ℤ))) :=
  cropRegion_aspect_and_maximal 100 50 1 2 ⟨0, 0, 10, 10⟩
    (by norm_num) (by norm_num) (by norm_num) (by norm_num)

end Inference

namespace Inference

/-- Helper: the generic shape of the matcher's reduce step — keep the
accumulator exactly when its score is strictly smaller. -/
def pickMin {α : Type} (f : α → ℚ) (p c : α) : α :=
  if f p < f c then p else c

/-- Helper: folding `pickMin f` over `a :: t` yields the LAST element of
`a :: t` attaining the minimal score: it splits the list around the result,
the result's score is a lower bound for the whole list, and every element
after the result scores strictly worse. -/
theorem foldl_pickMin_spec {α : Type} (f : α → ℚ) :
    ∀ (t : List α) (a : α), ∃ l1 l2 : List α,
      a :: t = l1 ++ (t.foldl (pickMin f) a) :: l2 ∧
      (∀ u ∈ a :: t, f (t.foldl (pickMin f) a) ≤ f u) ∧
      (∀ u ∈ l2, f (t.foldl (pickMin f) a) < f u) := by
  intro t
  induction t with
  | nil =>
    intro a
    exact ⟨[], [], rfl, by simp, by simp⟩
  | cons c t ih =>
    intro a
    have hfold : (c :: t).foldl (pickMin f) a =
        t.foldl (pickMin f) (pickMin f a c) := rfl
    obtain ⟨m1, m2, hdec, hmin, hstrict⟩ := ih (pickMin f a c)
    by_cases hac : f a < f c
    · have hpick : pickMin f a c = a := if_pos hac
      rw [hpick] at hdec hmin hstrict
      cases m1 with
      | nil =>
        simp only [List.nil_append] at hdec
        have hr : t.foldl (pickMin f) a = a :=
          (List.cons.injEq _ _ _ _).mp hdec |>.1.symm
        have hm2 : t = m2 := (List.cons.injEq _ _ _ _).mp hdec |>.2
        refine ⟨[], c :: t, ?_, ?_, ?_⟩
        · rw [hfold, hpick, hr]
          rfl
        · intro u hu
          rw [hfold, hpick, hr]
          rcases List.mem_cons.mp hu with h | hu2
          · subst h; exact le_refl _
          rcases List.mem_cons.mp hu2 with h | hu3
          · subst h; exact hac.le
          · exact (hr ▸ hmin u (List.mem_cons_of_mem _ hu3))
        · intro u hu
          rw [hfold, hpick, hr]
          rcases List.mem_cons.mp hu with h | hu2
          · subst h; exact hac
          · exact hr ▸ hstrict u (hm2 ▸ hu2)
      | cons x m1 =>
        simp only [List.cons_append] at hdec
        have ht : t = m1 ++ (t.foldl (pickMin f) a) :: m2 :=
          ((List.cons.injEq _ _ _ _).mp hdec).2
        refine ⟨a :: c :: m1, m2, ?_, ?_, ?_⟩
        · rw [hfold, hpick]
          simp only [List.cons_append]
          rw [← ht]
        · intro u hu
          rw [hfold, hpick]
          rcases List.mem_cons.mp hu with rfl | hu2
          · exact hmin u (List.mem_cons_self _ _)
          rcases List.mem_cons.mp hu2 with rfl | hu3
          · exact le_trans (hmin a (List.mem_cons_self _ _)) hac.le
          · exact hmin u (List.mem_cons_of_mem _ hu3)
        · intro u hu
          rw [hfold, hpick]
          exact hstrict u hu
    · have hpick : pickMin f a c = c := if_neg hac
      rw [hpick] at hdec hmin hstrict
      refine ⟨a :: m1, m2, ?_, ?_, ?_⟩
      · rw [hfold, hpick]
        simp only [List.cons_append]
        rw [← hdec]
      · intro u hu
        rw [hfold, hpick]
        rcases List.mem_cons.mp hu with h | hu2
        · subst h
          exact le_trans (hmin c (List.mem_cons_self _ _)) (le_of_not_lt hac)
        · exact hmin u hu2
      · intro u hu
        rw [hfold, hpick]
        exact hstrict u hu

/-- Claim C2 counterexample: for a square image and the catalog
`[(1,1), (2,2)]` both entries have aspect-ratio distance exactly 1 (the
minimum), yet the matcher returns `(2,2)`, the LAST minimal entry, not the
first: the reduce keeps the earlier entry only on a strict `<`, so ties go
to the later entry. -/
theorem closestResolution_tie_cex :
    getClosestSupportedResolution 100 100 [(1, 1), (2, 2)] = some (2, 2) ∧
    getClosestSupportedResolution 100 100 [(1, 1), (2, 2)] ≠ some (1, 1) := by
  have h : getClosestSupportedResolution 100 100 [(1, 1), (2, 2)] =
      some (2, 2) := by
    norm_num [getClosestSupportedResolution]
  refine ⟨h, ?_⟩
  rw [h]
  norm_num

/-- Claim C2 (amended): for a nonempty catalog of positive resolutions and a
positive image size, `getClosestSupportedResolution` returns an entry whose
symmetric distance `max(ar, arC) / min(ar, arC)` to the image ratio is
minimal over the catalog; when several entries attain the minimum it
returns the LAST such entry in catalog iteration order (every entry after
the returned one is strictly worse). -/
theorem getClosestSupportedResolution_spec (W H : ℚ) (l : List Vector2)
    (hW : 0 < W) (hH : 0 < H)
    (hpos : ∀ p ∈ l, 0 < p.1 ∧ 0 < p.2) (hne : l ≠ []) :
    ∃ v l1 l2, getClosestSupportedResolution W H l = some v ∧
      l = l1 ++ v :: l2 ∧
      (∀ u ∈ l, resDist (W / H) v ≤ resDist (W / H) u) ∧
      (∀ u ∈ l2, resDist (W / H) v < resDist (W / H) u) := by
  match l, hne with
  | h :: t, _ =>
    obtain ⟨l1, l2, hdec, hmin, hstrict⟩ :=
      foldl_pickMin_spec (resDist (W / H)) t h
    exact ⟨t.foldl (pickMin (resDist (W / H))) h, l1, l2, rfl,
      hdec, hmin, hstrict⟩

/-- Witness for `getClosestSupportedResolution_spec` on the spec's catalog
`[(768,512), (640,512), (512,512), (512,640), (512,768)]` and a 1000×1000
image. -/
theorem getClosestSupportedResolution_spec_witness :
    ∃ v l1 l2, getClosestSupportedResolution 1000 1000
        [(768, 512), (640, 512), (512, 512), (512, 640), (512, 768)] = some v ∧
      [((768 : ℚ), (512 : ℚ)), (640, 512), (512, 512), (512, 640), (512, 768)] =
        l1 ++ v :: l2 ∧
      (∀ u ∈ [((768 : ℚ), (512 : ℚ)), (640, 512), (512, 512), (512, 640),
          (512, 768)],
        resDist (1000 / 1000) v ≤ resDist (1000 / 1000) u) ∧
      (∀ u ∈ l2, resDist (1000 / 1000) v < resDist (1000 / 1000) u) :=
  getClosestSupportedResolution_spec 1000 1000
    [(768, 512), (640, 512), (512, 512), (512, 640), (512, 768)]
    (by norm_num) (by norm_num)
    (by intro p hp; fin_cases hp <;> norm_num) (by simp)

/-- Helper: the fold inside `extractBiggestFace` returns a member of
`a :: t` whose bounding-box area is maximal over `a :: t`. -/
theorem foldl_biggest (t : List Face) (a : Face) :
    (t.foldl (fun prev curr =>
      if getBBoxArea prev.bbox > getBBoxArea curr.bbox then prev else curr) a) ∈
        a :: t ∧
    ∀ g ∈ a :: t, getBBoxArea g.bbox ≤
      getBBoxArea (t.foldl (fun prev curr =>
        if getBBoxArea prev.bbox > getBBoxArea curr.bbox then prev else curr)
        a).bbox := by
  induction t generalizing a with
  | nil =>
    refine ⟨List.mem_cons_self _ _, ?_⟩
    intro g hg
    rcases List.mem_cons.mp hg with rfl | hg2
    · exact le_refl _
    · exact absurd hg2 (List.not_mem_nil g)
  | cons c t ih =>
    have hle : getBBoxArea a.bbox ≤
        getBBoxArea (if getBBoxArea a.bbox > getBBoxArea c.bbox then a
          else c).bbox ∧
        getBBoxArea c.bbox ≤
        getBBoxArea (if getBBoxArea a.bbox > getBBoxArea c.bbox then a
          else c).bbox := by
      split_ifs with hb
      · exact ⟨le_refl _, hb.le⟩
      · exact ⟨le_of_not_lt hb, le_refl _⟩
    obtain ⟨hmem, hmax⟩ :=
      ih (if getBBoxArea a.bbox > getBBoxArea c.bbox then a else c)
    have hstep : (if getBBoxArea a.bbox > getBBoxArea c.bbox then a else c) = a ∨
        (if getBBoxArea a.bbox > getBBoxArea c.bbox then a else c) = c := by
      split_ifs <;> simp
    simp only [List.foldl_cons]
    constructor
    · rcases List.mem_cons.mp hmem with h | h
      · rcases hstep with h2 | h2
        · rw [h, h2]; exact List.mem_cons_self _ _
        · rw [h, h2]; exact List.mem_cons_of_mem _ (List.mem_cons_self _ _)
      · exact List.mem_cons_of_mem _ (List.mem_cons_of_mem _ h)
    · intro g hg
      rcases List.mem_cons.mp hg with rfl | hg2
      · exact le_trans hle.1 (hmax _ (List.mem_cons_self _ _))
      rcases List.mem_cons.mp hg2 with rfl | hg3
      · exact le_trans hle.2 (hmax _ (List.mem_cons_self _ _))
      · exact hmax g (List.mem_cons_of_mem _ hg3)

/-- Claim C10: on a nonempty face list `extractBiggestFace` returns an
element of the list whose bounding-box area (per `getBBoxArea`) is greater
than or equal to every element's; on the empty list the reduce throws
(modelled: `none`), returning no face. -/
theorem extractBiggestFace_spec (faces : List Face) :
    (faces = [] → extractBiggestFace faces = none) ∧
    (faces ≠ [] → ∃ f, extractBiggestFace faces = some f ∧ f ∈ faces ∧
      ∀ g ∈ faces, getBBoxArea g.bbox ≤ getBBoxArea f.bbox) := by
  constructor
  · intro h; subst h; rfl
  · intro hne
    match faces, hne with
    | h :: t, _ =>
      obtain ⟨hmem, hmax⟩ := foldl_biggest t h
      exact ⟨_, rfl, hmem, hmax⟩

/-- Witness for `extractBiggestFace_spec`: the empty list yields no face,
and a concrete two-face list yields a face of maximal area. -/
theorem extractBiggestFace_spec_witness :
    extractBiggestFace ([] : List Face) = none ∧
    ∃ f, extractBiggestFace
        [⟨[], ⟨0, 0, 1, 1⟩, 1, 0, 30⟩, ⟨[], ⟨0, 0, 2, 2⟩, 1, 0, 25⟩] = some f ∧
      f ∈ [(⟨[], ⟨0, 0, 1, 1⟩, 1, 0, 30⟩ : Face), ⟨[], ⟨0, 0, 2, 2⟩, 1, 0, 25⟩] ∧
      ∀ g ∈ [(⟨[], ⟨0, 0, 1, 1⟩, 1, 0, 30⟩ : Face), ⟨[], ⟨0, 0, 2, 2⟩, 1, 0, 25⟩],
        getBBoxArea g.bbox ≤ getBBoxArea f.bbox :=
  ⟨(extractBiggestFace_spec []).1 rfl,
   (extractBiggestFace_spec
     [⟨[], ⟨0, 0, 1, 1⟩, 1, 0, 30⟩, ⟨[], ⟨0, 0, 2, 2⟩, 1, 0, 25⟩]).2 (by simp)⟩

end Inference
